import Mathlib

/-
Verification of the PZEM → OPC UA bridge (`pzem_to_opcua_min.py`).

Shallow embedding conventions:
* Python bytes objects become `List Nat` (each entry a byte value).
* Python floats become `ℚ`; every arithmetic operation the decoder and the
  simulator perform (division by 10/1000, additions, multiplications by
  exact decimal constants) is exact at the values involved, so rational
  arithmetic is faithful for the stated properties.
* Python dicts keyed by strings become association lists manipulated only
  through `dictInsert` / `dictGet`, which mirror dict update and
  `dict.get`.
* I/O effects (serial traffic, OPC UA writes, connect attempts) are
  parametrised by explicit environments recording whether each effectful
  operation raises, and the control flow of the source is mirrored by
  functions producing event traces.
-/

namespace PzemBridge

/-- Single snapshot of electrical readings, mirroring the `PzemReading`
dataclass: four measurement fields defaulting to `0.0` and a `status`
string defaulting to `"OK"`. -/
structure PzemReading where
  voltage : ℚ := 0
  current : ℚ := 0
  power : ℚ := 0
  energy : ℚ := 0
  status : String := "OK"
deriving Repr, DecidableEq, Inhabited

/-- Big-endian integer value of a byte list, the meaning of
`struct.unpack` with formats `">H"` / `">I"` applied to the exact-length
slices the decoder builds. -/
def beNat (bs : List Nat) : Nat :=
  bs.foldl (fun acc b => acc * 256 + b) 0

/-- `PzemNative._decode_response`: decode a 25-byte PZEM response buffer.
`buf[a:b]` becomes `(buf.drop a).take (b - a)`, and the `b"\x00" + ...`
prefix becomes a leading `0` byte.  Returns `none` when the buffer is too
short (the source returns `None`); with at least 25 bytes every slice is
full, so the `try`/`except` in the source can never fire and the success
branch is total. -/
def decode_response (buf : List Nat) : Option PzemReading :=
  if buf.length < 25 then none
  else
    let voltage : ℚ := (beNat ((buf.drop 3).take 2) : ℚ) / 10
    let current : ℚ := (beNat (0 :: (buf.drop 5).take 3) : ℚ) / 1000
    let power : ℚ := (beNat (0 :: (buf.drop 9).take 3) : ℚ) / 10
    let energy : ℚ := (beNat (0 :: (buf.drop 13).take 3) : ℚ)
    some { voltage := voltage, current := current, power := power,
           energy := energy, status := "OK" }

/-- Environment for one hardware-mode `PzemNative.read` call: whether any
of the serial operations raises (`serial.Serial`, `write`, `read`), the
exception text, and the bytes returned by `ser.read(25)` when nothing
raises. -/
structure SerialEnv where
  raises : Bool
  errMsg : String
  resp : List Nat

/-- Hardware branch of `PzemNative.read`: on a serial exception return a
default (all-zero) reading with a `"Serial error: ..."` status; otherwise
decode the response, updating `_last_energy` on success and returning the
`"No response/Decode fail"` default reading on decode failure.  The result
pairs the reading with the new `_last_energy` value. -/
def readHardware (env : SerialEnv) (lastEnergy : ℚ) : PzemReading × ℚ :=
  if env.raises then
    ({ status := "Serial error: " ++ env.errMsg }, lastEnergy)
  else
    match decode_response env.resp with
    | some r => (r, r.energy)
    | none => ({ status := "No response/Decode fail" }, lastEnergy)

/-- Python `int(...)` on a rational: truncation toward zero. -/
def pyTrunc (q : ℚ) : ℤ :=
  if 0 ≤ q then Rat.floor q else -(Rat.floor (-q))

/-- Simulate-mode voltage: `229.0 + 0.5 * (1 if int(now) % 2 == 0 else -1)`. -/
def simVoltage (now : ℚ) : ℚ :=
  229 + (1 / 2) * (if pyTrunc now % 2 = 0 then 1 else -1)

/-- Simulate-mode current: `0.150 + 0.010 * (1 if int(now / 3) % 2 == 0 else -1)`. -/
def simCurrent (now : ℚ) : ℚ :=
  3 / 20 + (1 / 100) * (if pyTrunc (now / 3) % 2 = 0 then 1 else -1)

/-- Simulate branch of `PzemNative.read` at wall-clock time `now` with
accumulator `_last_energy = lastEnergy`: oscillating voltage and current,
`power = voltage * current`, and energy accumulated by
`power * (5.0 / 3600.0)`.  Returns the reading and the new accumulator. -/
def readSimulate (now lastEnergy : ℚ) : PzemReading × ℚ :=
  let v := simVoltage now
  let i := simCurrent now
  let p := v * i
  let e := lastEnergy + p * (5 / 3600)
  ({ voltage := v, current := i, power := p, energy := e, status := "SIM" }, e)

/-- The readings produced by consecutive simulate-mode `read` calls at the
given times, threading the `_last_energy` accumulator. -/
def simReadings (times : List ℚ) (e0 : ℚ) : List PzemReading :=
  match times with
  | [] => []
  | t :: ts =>
    let r := readSimulate t e0
    r.1 :: simReadings ts r.2

/-- A node of the OPC UA address space as the client observes it: a browse
name and the list of direct children. -/
inductive UaNode : Type where
  | mk : String → List UaNode → UaNode

/-- Browse name of a node. -/
def UaNode.browseName : UaNode → String
  | .mk n _ => n

/-- Direct children of a node. -/
def UaNode.children : UaNode → List UaNode
  | .mk _ cs => cs

/-- `UmatiPrWriter._find_child_by_browse_name`: the first child whose
browse name matches exactly, else `none`. -/
def find_child_by_browse_name (parent : UaNode) (bn : String) : Option UaNode :=
  parent.children.find? (fun n => n.browseName == bn)

/-- Python dict assignment `m[k] = v`: replace the value of an existing
key in place, otherwise append the new binding. -/
def dictInsert {α : Type} (m : List (String × α)) (k : String) (v : α) :
    List (String × α) :=
  match m with
  | [] => [(k, v)]
  | (k', v') :: rest =>
    if k' = k then (k, v) :: rest else (k', v') :: dictInsert rest k v

/-- Python `m.get(k)`: the value bound to `k`, if any. -/
def dictGet {α : Type} (m : List (String × α)) (k : String) : Option α :=
  match m with
  | [] => none
  | (k', v') :: rest => if k' = k then some v' else dictGet rest k

/-- Python `m.get(k, d)`: lookup with a default. -/
def dictGetD {α : Type} (m : List (String × α)) (k : String) (d : α) : α :=
  (dictGet m k).getD d

/-- Path-walking loop of `UmatiPrWriter.resolve_nodes`: descend from
`root` through the channel-path segments, failing on the first segment
with no matching child. -/
def walkPath (root : UaNode) : List String → Option UaNode
  | [] => some root
  | seg :: rest =>
    match find_child_by_browse_name root seg with
    | none => none
    | some nxt => walkPath nxt rest

/-- Variable-lookup loop of `UmatiPrWriter.resolve_nodes`: for each name
in order, find the child under `cur` and store it into `self.nodes`
(`nodes`); on a missing variable return `False` with the map as mutated so
far — the source has already executed `self.nodes[name] = node` for the
earlier names. -/
def resolveVars (cur : UaNode) (names : List String)
    (nodes : List (String × UaNode)) : Bool × List (String × UaNode) :=
  match names with
  | [] => (true, nodes)
  | n :: rest =>
    match find_child_by_browse_name cur n with
    | none => (false, nodes)
    | some node => resolveVars cur rest (dictInsert nodes n node)

/-- `UmatiPrWriter.resolve_nodes`: walk the channel path, then resolve the
variable names, returning the success flag together with the final state
of `self.nodes` (initially `nodes`, `{}` for a fresh writer). -/
def resolve_nodes (root : UaNode) (channelPath : List String)
    (variableNames : List String) (nodes : List (String × UaNode)) :
    Bool × List (String × UaNode) :=
  match walkPath root channelPath with
  | none => (false, nodes)
  | some cur => resolveVars cur variableNames nodes

/-- Body of `UmatiPrWriter.write_values`.  `wk n` tells whether the
`node.write_value` call for variable `n` succeeds (`false` = it raises;
the exception then unwinds to the outer `except`, which returns `False`
after the writes already issued).  The result is the returned flag paired
with the list of (name, value) writes actually issued, in order.  An
unresolved name clears the flag and continues; a raising write aborts the
remainder of the batch. -/
def writeLoop (wk : String → Bool) (nodes : List (String × UaNode))
    (values : List (String × ℚ)) : List String → Bool × List (String × ℚ)
  | [] => (true, [])
  | n :: rest =>
    match dictGet nodes n with
    | none => (false, (writeLoop wk nodes values rest).2)
    | some _ =>
      if wk n then
        let r := writeLoop wk nodes values rest
        (r.1, (n, dictGetD values n 0) :: r.2)
      else (false, [])

/-- `UmatiPrWriter.write_values`: iterate the writer's fixed
`variable_names` list; never raises to the caller (the outer
`try`/`except` turns a write exception into a `False` return). -/
def write_values (wk : String → Bool) (variableNames : List String)
    (nodes : List (String × UaNode)) (values : List (String × ℚ)) :
    Bool × List (String × ℚ) :=
  writeLoop wk nodes values variableNames

/-- Observable events of `main`'s control flow. -/
inductive Ev : Type where
  | connectAttempt : Nat → Ev
  | sleepRetry : Ev
  | sensorRead : Ev
  | uaWrite : Ev
deriving DecidableEq, Repr

/-- Whether an event is a connect/resolve attempt. -/
def Ev.isAttempt : Ev → Bool
  | .connectAttempt _ => true
  | _ => false

/-- The `for attempt in range(1, retries + 1)` connection loop of `main`.
`succ k` tells whether attempt number `k` connects and resolves
successfully.  Arguments: current attempt number and number of loop
iterations still available.  Result: the event trace paired with
`some true` (break with a writer → sampling), `some false` (loop body
never ran → sampling with `writer = None`), or `none` (ceiling exhausted,
`main` returns). -/
def connectGo (succ : Nat → Bool) : Nat → Nat → List Ev × Option Bool
  | _, 0 => ([], some false)
  | attempt, remaining + 1 =>
    if succ attempt then ([.connectAttempt attempt], some true)
    else if remaining = 0 then ([.connectAttempt attempt], none)
    else
      let rest := connectGo succ (attempt + 1) remaining
      (.connectAttempt attempt :: .sleepRetry :: rest.1, rest.2)

/-- The whole connection phase of `main`: `range(1, retries + 1)` runs
`max retries 0` iterations starting at attempt 1. -/
def connectPhase (succ : Nat → Bool) (retries : Int) : List Ev × Option Bool :=
  connectGo succ 1 retries.toNat

/-- Expected trace of an all-failing connection phase: attempts `a`,
`a+1`, ... with a backoff sleep between consecutive attempts and none
after the last. -/
def failTrace : Nat → Nat → List Ev
  | _, 0 => []
  | a, 1 => [.connectAttempt a]
  | a, n + 2 => .connectAttempt a :: .sleepRetry :: failTrace (a + 1) (n + 1)

/-- `n` iterations of the sampling loop of `main`: each cycle reads the
sensor and, only when a writer was created (`hasWriter`), issues the OPC
UA batch write (`if writer and not await writer.write_values(...)`). -/
def samplingTrace (hasWriter : Bool) : Nat → List Ev
  | 0 => []
  | n + 1 =>
    Ev.sensorRead :: ((if hasWriter then [Ev.uaWrite] else [])
      ++ samplingTrace hasWriter n)

/-- Trace of `main` run for at most `cycles` sampling iterations: the
connection phase followed, when it does not return early, by the sampling
loop.  The flag records whether the sampling loop was entered. -/
def runMainTrace (succ : Nat → Bool) (retries : Int) (cycles : Nat) :
    List Ev × Bool :=
  match connectPhase succ retries with
  | (tr, none) => (tr, false)
  | (tr, some hw) => (tr ++ samplingTrace hw cycles, true)

/-- Exit status of the process as far as the embedded fragment determines
it: when the connection phase exhausts its ceiling, `main` returns
normally, `asyncio.run(main())` completes, and the interpreter exits with
status `0` (the `__main__` block installs no other exit path and never
calls `sys.exit`).  When the sampling loop is entered the process does not
terminate inside the modelled fragment (`none`). -/
def runProcess (succ : Nat → Bool) (retries : Int) : Option Nat :=
  match (connectPhase succ retries).2 with
  | none => some 0
  | some _ => none

/-- The 25-byte fixture of the specification: voltage field `0x08 0xFC`
at offsets 3–4 and current field `0x00 0x00 0x96` at offsets 5–7. -/
def fixtureBuf : List Nat :=
  [1, 4, 20, 8, 252, 0, 0, 150, 0, 0, 0, 0, 0,
   0, 0, 0, 0, 0, 0, 0, 0, 0, 0, 0, 0]

/-- Concrete address-space tree for the resolution counterexample: the
channel container holds `AcVoltagePe` but not `Missing`. -/
def cexRoot : UaNode :=
  .mk "Root" [.mk "AcVoltagePe" []]

/-- Concrete tree for the resolution witness:
`Root / Main / AcVoltagePe`. -/
def witRoot : UaNode :=
  .mk "Root" [.mk "Main" [.mk "AcVoltagePe" []]]

/-- Resolved-node map for the write_values counterexample: both `"a"` and
`"b"` resolved. -/
def cexNodes : List (String × UaNode) :=
  [("a", .mk "a" []), ("b", .mk "b" [])]

/-- Write outcomes for the write_values counterexample: the write for
`"a"` raises, the write for `"b"` would succeed. -/
def cexWk : String → Bool :=
  fun n => n == "b"

theorem beNat_two (a b : Nat) : beNat [a, b] = a * 256 + b := by
  simp [beNat]

theorem beNat_four0 (a b c : Nat) :
    beNat [0, a, b, c] = a * 65536 + b * 256 + c := by
  simp [beNat]
  ring

theorem drop_take_two (l : List Nat) (k : Nat) (h : k + 2 ≤ l.length) :
    (l.drop k).take 2 = [l.getD k 0, l.getD (k + 1) 0] := by
  induction k generalizing l with
  | zero =>
    match l, h with
    | a :: b :: t, _ => simp
  | succ k ih =>
    match l, h with
    | a :: t, h =>
      simp only [List.drop_succ_cons, List.getD_cons_succ]
      exact ih t (by simpa using h)

theorem drop_take_three (l : List Nat) (k : Nat) (h : k + 3 ≤ l.length) :
    (l.drop k).take 3 = [l.getD k 0, l.getD (k + 1) 0, l.getD (k + 2) 0] := by
  induction k generalizing l with
  | zero =>
    match l, h with
    | a :: b :: c :: t, _ => simp
  | succ k ih =>
    match l, h with
    | a :: t, h =>
      simp only [List.drop_succ_cons, List.getD_cons_succ]
      exact ih t (by simpa using h)

theorem decode_response_getD (buf : List Nat) (h : 25 ≤ buf.length) :
    decode_response buf = some {
      voltage := ((buf.getD 3 0 * 256 + buf.getD 4 0 : ℕ) : ℚ) / 10,
      current := ((buf.getD 5 0 * 65536 + buf.getD 6 0 * 256
        + buf.getD 7 0 : ℕ) : ℚ) / 1000,
      power := ((buf.getD 9 0 * 65536 + buf.getD 10 0 * 256
        + buf.getD 11 0 : ℕ) : ℚ) / 10,
      energy := ((buf.getD 13 0 * 65536 + buf.getD 14 0 * 256
        + buf.getD 15 0 : ℕ) : ℚ),
      status := "OK" } := by
  rw [decode_response, if_neg (by omega)]
  rw [drop_take_two buf 3 (by omega), drop_take_three buf 5 (by omega),
    drop_take_three buf 9 (by omega), drop_take_three buf 13 (by omega)]
  simp only [beNat_two, beNat_four0]

/-- C3: for every buffer of at least 25 bytes, decoding yields
voltage = (big-endian 2-byte field at offset 3) / 10, current = (3-byte
field at offset 5 with implicit leading zero byte) / 1000, power =
(3-byte field at offset 9, same scheme) / 10, and energy = (3-byte field
at offset 13, same scheme) unscaled; and on the spec's 25-byte fixture
the result has voltage 230 and current 0.150 exactly. -/
theorem decode_response_fields :
    (∀ buf : List Nat, 25 ≤ buf.length →
      decode_response buf = some {
        voltage := ((buf.getD 3 0 * 256 + buf.getD 4 0 : ℕ) : ℚ) / 10,
        current := ((buf.getD 5 0 * 65536 + buf.getD 6 0 * 256
          + buf.getD 7 0 : ℕ) : ℚ) / 1000,
        power := ((buf.getD 9 0 * 65536 + buf.getD 10 0 * 256
          + buf.getD 11 0 : ℕ) : ℚ) / 10,
        energy := ((buf.getD 13 0 * 65536 + buf.getD 14 0 * 256
          + buf.getD 15 0 : ℕ) : ℚ),
        status := "OK" })
    ∧ ((decode_response fixtureBuf).map PzemReading.voltage = some 230
      ∧ (decode_response fixtureBuf).map PzemReading.current = some (3 / 20)) := by
  refine ⟨fun buf h => decode_response_getD buf h, ?_, ?_⟩
  · rw [decode_response_getD fixtureBuf (by norm_num [fixtureBuf])]
    simp only [Option.map_some']
    norm_num [show fixtureBuf.getD 3 0 = 8 from rfl,
      show fixtureBuf.getD 4 0 = 252 from rfl,
      show fixtureBuf[3]?.getD 0 = 8 from rfl,
      show fixtureBuf[4]?.getD 0 = 252 from rfl]
  · rw [decode_response_getD fixtureBuf (by norm_num [fixtureBuf])]
    simp only [Option.map_some']
    norm_num [show fixtureBuf.getD 5 0 = 0 from rfl,
      show fixtureBuf.getD 6 0 = 0 from rfl,
      show fixtureBuf.getD 7 0 = 150 from rfl,
      show fixtureBuf[5]?.getD 0 = 0 from rfl,
      show fixtureBuf[6]?.getD 0 = 0 from rfl,
      show fixtureBuf[7]?.getD 0 = 150 from rfl]

/-- C3 witness: the general field-extraction theorem applied to the
concrete 25-byte fixture. -/
theorem decode_response_fields_witness :
    decode_response fixtureBuf = some {
      voltage := ((fixtureBuf.getD 3 0 * 256 + fixtureBuf.getD 4 0 : ℕ) : ℚ) / 10,
      current := ((fixtureBuf.getD 5 0 * 65536 + fixtureBuf.getD 6 0 * 256
        + fixtureBuf.getD 7 0 : ℕ) : ℚ) / 1000,
      power := ((fixtureBuf.getD 9 0 * 65536 + fixtureBuf.getD 10 0 * 256
        + fixtureBuf.getD 11 0 : ℕ) : ℚ) / 10,
      energy := ((fixtureBuf.getD 13 0 * 65536 + fixtureBuf.getD 14 0 * 256
        + fixtureBuf.getD 15 0 : ℕ) : ℚ),
      status := "OK" } :=
  decode_response_fields.1 fixtureBuf (by decide)

/-- C7: decoding is total with a discriminated result, and every buffer
shorter than 25 bytes yields a decode failure, never a partial reading.
(In the embedding the success branch only runs with all slices full, so
the extraction itself can never fault; the source's `try`/`except` is
unreachable for such buffers.) -/
theorem decode_response_short_buffer :
    ∀ buf : List Nat,
      (decode_response buf = none ∨ ∃ r, decode_response buf = some r)
      ∧ (buf.length < 25 → decode_response buf = none) := by
  intro buf
  constructor
  · cases h : decode_response buf with
    | none => exact Or.inl rfl
    | some r => exact Or.inr ⟨r, rfl⟩
  · intro h
    simp [decode_response, h]

/-- C7 witness: the short-buffer theorem applied to the empty buffer. -/
theorem decode_response_short_buffer_witness :
    (decode_response [] = none ∨ ∃ r, decode_response [] = some r)
    ∧ decode_response [] = none :=
  ⟨(decode_response_short_buffer []).1,
   (decode_response_short_buffer []).2 (by decide)⟩

theorem serial_status_ne_ok (m : String) : "Serial error: " ++ m ≠ "OK" := by
  intro h
  have hl := congrArg String.length h
  rw [String.length_append] at hl
  have h1 : ("Serial error: " : String).length = 14 := rfl
  have h2 : ("OK" : String).length = 2 := rfl
  omega

theorem serial_status_ne_sim (m : String) : "Serial error: " ++ m ≠ "SIM" := by
  intro h
  have hl := congrArg String.length h
  rw [String.length_append] at hl
  have h1 : ("Serial error: " : String).length = 14 := rfl
  have h2 : ("SIM" : String).length = 3 := rfl
  omega

/-- C6: hardware-mode `read` is total and, on every failing outcome of the
underlying serial I/O — a serial exception, no response, a short response,
or a decode failure (the latter three are exactly the cases where
`_decode_response` returns `None`) — yields a reading whose status is an
error value (neither `"OK"` nor `"SIM"`) and whose four measurement fields
are all zero. -/
theorem read_error_reading_zeroed :
    ∀ (env : SerialEnv) (le : ℚ),
      env.raises = true ∨ decode_response env.resp = none →
      (readHardware env le).1.voltage = 0 ∧ (readHardware env le).1.current = 0
      ∧ (readHardware env le).1.power = 0 ∧ (readHardware env le).1.energy = 0
      ∧ (readHardware env le).1.status ≠ "OK"
      ∧ (readHardware env le).1.status ≠ "SIM" := by
  intro env le h
  cases hr : env.raises with
  | true =>
    unfold readHardware
    rw [if_pos hr]
    exact ⟨rfl, rfl, rfl, rfl, serial_status_ne_ok env.errMsg,
      serial_status_ne_sim env.errMsg⟩
  | false =>
    have hd : decode_response env.resp = none := by
      cases h with
      | inl h' => rw [hr] at h'; cases h'
      | inr h' => exact h'
    unfold readHardware
    rw [if_neg (by simp [hr]), hd]
    refine ⟨rfl, rfl, rfl, rfl, ?_, ?_⟩
    · show ("No response/Decode fail" : String) ≠ "OK"
      decide
    · show ("No response/Decode fail" : String) ≠ "SIM"
      decide

/-- C6 witness: a raising serial environment produces the zeroed error
reading. -/
theorem read_error_reading_zeroed_witness :
    (readHardware ⟨true, "boom", []⟩ 0).1.voltage = 0
    ∧ (readHardware ⟨true, "boom", []⟩ 0).1.current = 0
    ∧ (readHardware ⟨true, "boom", []⟩ 0).1.power = 0
    ∧ (readHardware ⟨true, "boom", []⟩ 0).1.energy = 0
    ∧ (readHardware ⟨true, "boom", []⟩ 0).1.status ≠ "OK"
    ∧ (readHardware ⟨true, "boom", []⟩ 0).1.status ≠ "SIM" :=
  read_error_reading_zeroed ⟨true, "boom", []⟩ 0 (Or.inl rfl)

theorem simVoltage_ge (t : ℚ) : 457 / 2 ≤ simVoltage t := by
  unfold simVoltage
  split <;> norm_num

theorem simVoltage_le (t : ℚ) : simVoltage t ≤ 459 / 2 := by
  unfold simVoltage
  split <;> norm_num

theorem simCurrent_nonneg (t : ℚ) : 0 ≤ simCurrent t := by
  unfold simCurrent
  split <;> norm_num

theorem readSimulate_energy_ge (t e : ℚ) : e ≤ (readSimulate t e).1.energy := by
  have hv : (0 : ℚ) ≤ simVoltage t := le_trans (by norm_num) (simVoltage_ge t)
  have hi := simCurrent_nonneg t
  have hp : 0 ≤ simVoltage t * simCurrent t * (5 / 3600 : ℚ) :=
    mul_nonneg (mul_nonneg hv hi) (by norm_num)
  simp only [readSimulate]
  linarith

theorem simReadings_energy_mono (ts : List ℚ) :
    ∀ e : ℚ,
      List.Chain' (· ≤ ·) ((simReadings ts e).map PzemReading.energy)
      ∧ ∀ r ∈ simReadings ts e, e ≤ r.energy := by
  induction ts with
  | nil => intro e; simp [simReadings]
  | cons t ts ih =>
    intro e
    obtain ⟨ihc, ihm⟩ := ih (readSimulate t e).2
    have hstep : e ≤ (readSimulate t e).1.energy := readSimulate_energy_ge t e
    have h21 : (readSimulate t e).2 = (readSimulate t e).1.energy := rfl
    constructor
    · simp only [simReadings, List.map_cons]
      refine List.chain'_cons'.mpr ⟨?_, ihc⟩
      intro y hy
      cases hrest : simReadings ts (readSimulate t e).2 with
      | nil => rw [hrest] at hy; simp at hy
      | cons a l =>
        rw [hrest] at hy
        simp only [List.map_cons, List.head?_cons, Option.mem_def,
          Option.some.injEq] at hy
        subst hy
        have ha : a ∈ simReadings ts (readSimulate t e).2 := by
          rw [hrest]; exact List.mem_cons_self a l
        have := ihm a ha
        rw [h21] at this
        exact this
    · intro r hr
      simp only [simReadings, List.mem_cons] at hr
      cases hr with
      | inl h' => rw [h']; exact hstep
      | inr h' =>
        have := ihm r h'
        rw [h21] at this
        exact le_trans hstep this

theorem simReadings_voltage_band (ts : List ℚ) :
    ∀ e : ℚ, ∀ r ∈ simReadings ts e,
      457 / 2 ≤ r.voltage ∧ r.voltage ≤ 459 / 2 := by
  induction ts with
  | nil => intro e r hr; simp [simReadings] at hr
  | cons t ts ih =>
    intro e r hr
    simp only [simReadings, List.mem_cons] at hr
    cases hr with
    | inl h' =>
      rw [h']
      exact ⟨simVoltage_ge t, simVoltage_le t⟩
    | inr h' => exact ih (readSimulate t e).2 r h'

/-- C8: in simulate mode, over any sequence of consecutive reads within
one session, the returned energies are monotonically non-decreasing and
every returned voltage lies in the oscillation band 229.0 ± 0.5 V
(i.e. between 228.5 and 229.5). -/
theorem simulate_energy_monotone_voltage_band :
    ∀ (times : List ℚ) (e0 : ℚ),
      List.Chain' (· ≤ ·) ((simReadings times e0).map PzemReading.energy)
      ∧ ∀ r ∈ simReadings times e0,
          457 / 2 ≤ r.voltage ∧ r.voltage ≤ 459 / 2 :=
  fun times e0 =>
    ⟨(simReadings_energy_mono times e0).1, simReadings_voltage_band times e0⟩

/-- C8 witness: the invariants instantiated on a concrete two-read session
and its first returned reading. -/
theorem simulate_energy_monotone_voltage_band_witness :
    List.Chain' (· ≤ ·) ((simReadings [0, 1] 0).map PzemReading.energy)
    ∧ (457 / 2 ≤ (readSimulate 0 0).1.voltage
      ∧ (readSimulate 0 0).1.voltage ≤ 459 / 2) :=
  ⟨(simulate_energy_monotone_voltage_band [0, 1] 0).1,
   (simulate_energy_monotone_voltage_band [0, 1] 0).2 (readSimulate 0 0).1
     (by simp [simReadings])⟩

theorem mem_dictInsert_keys {α : Type} (m : List (String × α)) (k : String)
    (v : α) (x : String) :
    x ∈ (dictInsert m k v).map Prod.fst ↔ x ∈ m.map Prod.fst ∨ x = k := by
  induction m with
  | nil => simp [dictInsert]
  | cons p rest ih =>
    obtain ⟨k', v'⟩ := p
    by_cases hk : k' = k
    · subst hk
      simp [dictInsert]
      tauto
    · simp [dictInsert, hk, ih]
      tauto

theorem nodup_dictInsert {α : Type} (m : List (String × α)) (k : String) (v : α)
    (h : (m.map Prod.fst).Nodup) : ((dictInsert m k v).map Prod.fst).Nodup := by
  induction m with
  | nil => simp [dictInsert]
  | cons p rest ih =>
    obtain ⟨k', v'⟩ := p
    simp only [List.map_cons, List.nodup_cons] at h
    by_cases hk : k' = k
    · subst hk
      have hins : dictInsert ((k', v') :: rest) k' v = (k', v) :: rest := by
        simp [dictInsert]
      rw [hins, List.map_cons, List.nodup_cons]
      exact ⟨h.1, h.2⟩
    · simp only [dictInsert, if_neg hk, List.map_cons, List.nodup_cons]
      refine ⟨?_, ih h.2⟩
      rw [mem_dictInsert_keys]
      rintro (hmem | heq)
      · exact h.1 hmem
      · exact hk heq

theorem resolveVars_success (names : List String) :
    ∀ (cur : UaNode) (m m' : List (String × UaNode)),
      resolveVars cur names m = (true, m') →
      (∀ x, x ∈ m'.map Prod.fst ↔ x ∈ m.map Prod.fst ∨ x ∈ names)
      ∧ ((m.map Prod.fst).Nodup → (m'.map Prod.fst).Nodup) := by
  induction names with
  | nil =>
    intro cur m m' h
    simp only [resolveVars] at h
    injection h with h1 h2
    subst h2
    simp
  | cons n rest ih =>
    intro cur m m' h
    simp only [resolveVars] at h
    cases hf : find_child_by_browse_name cur n with
    | none =>
      rw [hf] at h
      injection h with h1 h2
      exact Bool.noConfusion h1
    | some node =>
      rw [hf] at h
      obtain ⟨hiff, hnd⟩ := ih cur (dictInsert m n node) m' h
      constructor
      · intro x
        rw [hiff x, mem_dictInsert_keys]
        simp only [List.mem_cons]
        tauto
      · intro hm
        exact hnd (nodup_dictInsert m n node hm)

/-- C1 amended: starting from the fresh writer's empty node map, a
successful resolution yields a map whose keys are exactly the requested
variable names (no duplicates, one entry per name); and when a channel
path segment is missing, resolution fails with the stored node map left
completely unchanged.  (The original claim's further assertion — that a
missing variable also leaves the stored map unchanged — is refuted by
`resolve_nodes_partial_cache_counterexample`: variables resolved before
the missing one stay cached in `self.nodes`.) -/
theorem resolve_nodes_exact_and_segment_atomic :
    (∀ (root : UaNode) (path names : List String)
        (m : List (String × UaNode)),
      resolve_nodes root path names [] = (true, m) →
      (m.map Prod.fst).Nodup ∧ ∀ x, x ∈ m.map Prod.fst ↔ x ∈ names)
    ∧ (∀ (root : UaNode) (path names : List String)
        (m0 : List (String × UaNode)),
      walkPath root path = none →
      resolve_nodes root path names m0 = (false, m0)) := by
  constructor
  · intro root path names m h
    unfold resolve_nodes at h
    cases hw : walkPath root path with
    | none =>
      rw [hw] at h
      injection h with h1 h2
      exact Bool.noConfusion h1
    | some cur =>
      rw [hw] at h
      obtain ⟨hiff, hnd⟩ := resolveVars_success names cur [] m h
      refine ⟨hnd (by simp), ?_⟩
      intro x
      rw [hiff x]
      simp
  · intro root path names m0 h
    unfold resolve_nodes
    rw [h]

/-- C1 counterexample: with the channel container holding `AcVoltagePe`
but not `Missing`, resolving `["AcVoltagePe", "Missing"]` fails, yet the
stored node map is no longer empty — it has cached the entry for
`AcVoltagePe`, so resolution is not atomic on a missing variable. -/
theorem resolve_nodes_partial_cache_counterexample :
    (resolve_nodes cexRoot [] ["AcVoltagePe", "Missing"] []).1 = false
    ∧ ((resolve_nodes cexRoot [] ["AcVoltagePe", "Missing"] []).2).map Prod.fst
      = ["AcVoltagePe"]
    ∧ (["AcVoltagePe"] : List String) ≠ ([] : List String) :=
  ⟨rfl, rfl, by decide⟩

/-- C1 witness: the amended theorem applied to a concrete tree — a
successful resolution of one variable under `Root / Main`, and a failed
walk of a missing segment leaving a non-empty starting map unchanged. -/
theorem resolve_nodes_exact_witness :
    (([("AcVoltagePe", UaNode.mk "AcVoltagePe" [])] :
        List (String × UaNode)).map Prod.fst).Nodup
    ∧ ("AcVoltagePe" ∈ ([("AcVoltagePe", UaNode.mk "AcVoltagePe" [])] :
        List (String × UaNode)).map Prod.fst
      ↔ "AcVoltagePe" ∈ (["AcVoltagePe"] : List String))
    ∧ resolve_nodes witRoot ["Nope"] ["AcVoltagePe"] [("x", witRoot)]
      = (false, [("x", witRoot)]) :=
  ⟨(resolve_nodes_exact_and_segment_atomic.1 witRoot ["Main"] ["AcVoltagePe"]
      _ rfl).1,
   (resolve_nodes_exact_and_segment_atomic.1 witRoot ["Main"] ["AcVoltagePe"]
      _ rfl).2 "AcVoltagePe",
   resolve_nodes_exact_and_segment_atomic.2 witRoot ["Nope"] ["AcVoltagePe"]
     [("x", witRoot)] rfl⟩

theorem writeLoop_flag (wk : String → Bool) (nodes : List (String × UaNode))
    (values : List (String × ℚ)) :
    ∀ names : List String,
      (writeLoop wk nodes values names).1 = true
        ↔ ∀ n ∈ names, (dictGet nodes n).isSome = true ∧ wk n = true := by
  intro names
  induction names with
  | nil => simp [writeLoop]
  | cons n rest ih =>
    simp only [writeLoop]
    cases hg : dictGet nodes n with
    | none => simp [hg]
    | some node =>
      cases hw : wk n with
      | true => simp [hg, hw, ih]
      | false => simp [hg, hw]

theorem writeLoop_writes_all_ok (wk : String → Bool)
    (nodes : List (String × UaNode)) (values : List (String × ℚ))
    (hwk : ∀ n, wk n = true) :
    ∀ names : List String,
      (writeLoop wk nodes values names).2
        = (names.filter (fun n => (dictGet nodes n).isSome)).map
            (fun n => (n, dictGetD values n 0)) := by
  intro names
  induction names with
  | nil => simp [writeLoop]
  | cons n rest ih =>
    simp only [writeLoop, List.filter_cons]
    cases hg : dictGet nodes n with
    | none => simp [hg, ih]
    | some node => simp [hg, hwk n, ih]

theorem writeLoop_abort (wk : String → Bool) (nodes : List (String × UaNode))
    (values : List (String × ℚ)) (n : String) (rest : List String)
    (hres : (dictGet nodes n).isSome = true) (hw : wk n = false) :
    writeLoop wk nodes values (n :: rest) = (false, []) := by
  simp only [writeLoop]
  cases hg : dictGet nodes n with
  | none => rw [hg] at hres; simp at hres
  | some node => simp [hg, hw]

/-- C2 amended: `write_values` never throws to its caller and its
aggregate result is `true` exactly when every name in the fixed list is
resolved and its write succeeds; an unresolved name is recorded as a
per-item failure and the batch continues past it (when no write raises,
the issued writes are exactly the resolved names, in list order).
However, when an individual write itself raises, the batch ABORTS early —
the exception unwinds to the outer handler, the remaining names are not
visited, and the call returns `false` — contrary to the original claim
that an individual write failure also lets the batch continue. -/
theorem write_values_semantics :
    (∀ (wk : String → Bool) (names : List String)
        (nodes : List (String × UaNode)) (values : List (String × ℚ)),
      (write_values wk names nodes values).1 = true
        ↔ ∀ n ∈ names, (dictGet nodes n).isSome = true ∧ wk n = true)
    ∧ (∀ (wk : String → Bool) (names : List String)
        (nodes : List (String × UaNode)) (values : List (String × ℚ)),
      (∀ n, wk n = true) →
      (write_values wk names nodes values).2
        = (names.filter (fun n => (dictGet nodes n).isSome)).map
            (fun n => (n, dictGetD values n 0)))
    ∧ (∀ (wk : String → Bool) (n : String) (rest : List String)
        (nodes : List (String × UaNode)) (values : List (String × ℚ)),
      (dictGet nodes n).isSome = true → wk n = false →
      write_values wk (n :: rest) nodes values = (false, [])) :=
  ⟨fun wk names nodes values => writeLoop_flag wk nodes values names,
   fun wk names nodes values hwk => writeLoop_writes_all_ok wk nodes values hwk names,
   fun wk n rest nodes values hres hw => writeLoop_abort wk nodes values n rest hres hw⟩

/-- C2 counterexample: with both `"a"` and `"b"` resolved and the write
for `"a"` raising while the write for `"b"` would succeed, `write_values`
issues no write at all for `"b"` (the returned write list is empty): the
batch aborts early on an individual write failure instead of continuing. -/
theorem write_values_abort_counterexample :
    (write_values cexWk ["a", "b"] cexNodes []).1 = false
    ∧ (write_values cexWk ["a", "b"] cexNodes []).2 = []
    ∧ (dictGet cexNodes "b").isSome = true
    ∧ cexWk "b" = true :=
  ⟨rfl, rfl, rfl, rfl⟩

/-- C2 witness: the amended semantics applied to concrete batches — an
all-resolved all-succeeding batch returns `true` with both writes issued
(with the default value 0 for names absent from the values map), and a
batch whose first write raises returns `false` with no writes issued. -/
theorem write_values_semantics_witness :
    (write_values (fun _ => true) ["a", "b"] cexNodes []).1 = true
    ∧ (write_values (fun _ => true) ["a", "b"] cexNodes []).2
      = [("a", 0), ("b", 0)]
    ∧ write_values cexWk ["a", "b"] cexNodes [] = (false, []) :=
  ⟨(write_values_semantics.1 (fun _ => true) ["a", "b"] cexNodes []).mpr
      (by decide),
   (write_values_semantics.2.1 (fun _ => true) ["a", "b"] cexNodes []
      (fun _ => rfl)).trans (by rfl),
   write_values_semantics.2.2 cexWk "a" ["b"] cexNodes [] rfl rfl⟩

/-- C9: a variable name that is in the writer's list and resolved but
absent from the values mapping is still written, with the default value
0.0, and is not recorded as a failure (stated for calls in which no write
raises, so that the batch is not cut short by an unrelated exception). -/
theorem write_values_default_zero :
    ∀ (wk : String → Bool) (names : List String)
      (nodes : List (String × UaNode)) (values : List (String × ℚ))
      (name : String),
      (∀ n, wk n = true) → name ∈ names →
      (dictGet nodes name).isSome = true → dictGet values name = none →
      (name, (0 : ℚ)) ∈ (write_values wk names nodes values).2 := by
  intro wk names nodes values name hwk hmem hres hval
  rw [write_values, writeLoop_writes_all_ok wk nodes values hwk names]
  refine List.mem_map.mpr ⟨name, ?_, ?_⟩
  · rw [List.mem_filter]
    exact ⟨hmem, hres⟩
  · simp [dictGetD, hval]

/-- C9 witness: with `"b"` resolved but absent from the values map, the
write `("b", 0)` is issued. -/
theorem write_values_default_zero_witness :
    ("b", (0 : ℚ)) ∈ (write_values (fun _ => true) ["a", "b"] cexNodes
      [("a", 5)]).2 :=
  write_values_default_zero (fun _ => true) ["a", "b"] cexNodes [("a", 5)]
    "b" (fun _ => rfl) (by decide) rfl rfl

theorem connectGo_all_fail (succ : Nat → Bool) (hf : ∀ k, succ k = false) :
    ∀ (n a : Nat), connectGo succ a (n + 1) = (failTrace a (n + 1), none) := by
  intro n
  induction n with
  | zero =>
    intro a
    simp [connectGo, hf a, failTrace]
  | succ n ih =>
    intro a
    have h1 : connectGo succ a (n + 1 + 1)
        = (Ev.connectAttempt a :: Ev.sleepRetry
            :: (connectGo succ (a + 1) (n + 1)).1,
           (connectGo succ (a + 1) (n + 1)).2) := by
      rw [connectGo.eq_def]
      simp [hf a]
    rw [h1, ih (a + 1)]
    rfl

theorem failTrace_attempts (n : Nat) :
    ∀ a, ((failTrace a (n + 1)).filter Ev.isAttempt).length = n + 1 := by
  induction n with
  | zero => intro a; rfl
  | succ n ih =>
    intro a
    show ((Ev.connectAttempt a :: Ev.sleepRetry
      :: failTrace (a + 1) (n + 1)).filter Ev.isAttempt).length = n + 2
    simp [List.filter_cons, Ev.isAttempt, ih (a + 1)]

theorem failTrace_sleeps (n : Nat) :
    ∀ a, ((failTrace a (n + 1)).filter
      (fun e => e == Ev.sleepRetry)).length = n := by
  induction n with
  | zero => intro a; rfl
  | succ n ih =>
    intro a
    show ((Ev.connectAttempt a :: Ev.sleepRetry
      :: failTrace (a + 1) (n + 1)).filter
        (fun e => e == Ev.sleepRetry)).length = n + 1
    simp [List.filter_cons, ih (a + 1)]

theorem failTrace_getLast (n : Nat) :
    ∀ a, (failTrace a (n + 1)).getLast? = some (.connectAttempt (a + n)) := by
  induction n with
  | zero => intro a; simp [failTrace]
  | succ n ih =>
    intro a
    have h := ih (a + 1)
    have hne : failTrace (a + 1) (n + 1) ≠ [] := by
      intro hnil
      rw [hnil] at h
      simp at h
    obtain ⟨r, l, hrl⟩ : ∃ r l, failTrace (a + 1) (n + 1) = r :: l := by
      cases hcase : failTrace (a + 1) (n + 1) with
      | nil => exact absurd hcase hne
      | cons r l => exact ⟨r, l, rfl⟩
    show (Ev.connectAttempt a :: Ev.sleepRetry
      :: failTrace (a + 1) (n + 1)).getLast?
      = some (.connectAttempt (a + (n + 1)))
    rw [hrl] at h ⊢
    rw [List.getLast?_cons_cons, List.getLast?_cons_cons, h]
    have harith : a + 1 + n = a + (n + 1) := by omega
    rw [harith]

/-- C4: with attempt ceiling N ≥ 1 and every connect/resolve attempt
failing, the connection phase performs exactly N attempts — its trace is
attempts 1..N with a backoff sleep between consecutive attempts and none
after the last (the last trace event is attempt N, and there are exactly
N − 1 sleeps) — and then `main` returns without ever entering the
sampling loop (`none`). -/
theorem connect_retry_exact_attempts :
    ∀ (N : Nat) (succ : Nat → Bool),
      1 ≤ N → (∀ k, succ k = false) →
      connectPhase succ (N : Int) = (failTrace 1 N, none)
      ∧ ((failTrace 1 N).filter Ev.isAttempt).length = N
      ∧ ((failTrace 1 N).filter (fun e => e == Ev.sleepRetry)).length = N - 1
      ∧ (failTrace 1 N).getLast? = some (.connectAttempt N) := by
  intro N succ hN hf
  obtain ⟨M, rfl⟩ : ∃ M, N = M + 1 := ⟨N - 1, by omega⟩
  refine ⟨?_, ?_, ?_, ?_⟩
  · unfold connectPhase
    rw [show ((M + 1 : Nat) : Int).toNat = M + 1 by simp]
    exact connectGo_all_fail succ hf M 1
  · exact failTrace_attempts M 1
  · simpa using failTrace_sleeps M 1
  · have h := failTrace_getLast M 1
    rw [h]
    have harith : 1 + M = M + 1 := by omega
    rw [harith]

/-- C4 witness: the retry theorem at ceiling 3 with every attempt
failing. -/
theorem connect_retry_exact_attempts_witness :
    connectPhase (fun _ => false) ((3 : Nat) : Int) = (failTrace 1 3, none)
    ∧ ((failTrace 1 3).filter Ev.isAttempt).length = 3
    ∧ ((failTrace 1 3).filter (fun e => e == Ev.sleepRetry)).length = 3 - 1
    ∧ (failTrace 1 3).getLast? = some (.connectAttempt 3) :=
  connect_retry_exact_attempts 3 (fun _ => false) (by decide) (fun _ => rfl)

/-- C5 counterexample: with ceiling 3 and every connect attempt failing,
the process terminates with exit status 0 — `main` simply returns after
the last attempt, `asyncio.run` completes, and no non-zero exit status is
ever produced, contrary to the claim. -/
theorem exit_status_counterexample :
    runProcess (fun _ => false) 3 = some 0
    ∧ ¬∃ c, runProcess (fun _ => false) 3 = some c ∧ c ≠ 0 := by
  have h : runProcess (fun _ => false) 3 = some 0 := rfl
  refine ⟨h, ?_⟩
  rintro ⟨c, hc, hcne⟩
  rw [h] at hc
  injection hc with hc'
  exact hcne hc'.symm

/-- C5 amended: whenever every connection/resolution attempt fails and
the ceiling N ≥ 1 is exhausted, the process terminates without entering
the sampling loop, after logging all N attempts — but with exit status 0
(a plain return from `main`), not a non-zero status. -/
theorem exit_status_zero_on_exhaustion :
    ∀ (N : Nat) (succ : Nat → Bool),
      1 ≤ N → (∀ k, succ k = false) →
      runProcess succ (N : Int) = some 0
      ∧ (connectPhase succ (N : Int)).2 = none
      ∧ ((connectPhase succ (N : Int)).1.filter Ev.isAttempt).length = N := by
  intro N succ hN hf
  obtain ⟨M, rfl⟩ : ∃ M, N = M + 1 := ⟨N - 1, by omega⟩
  have hphase : connectPhase succ ((M + 1 : Nat) : Int)
      = (failTrace 1 (M + 1), none) := by
    unfold connectPhase
    rw [show ((M + 1 : Nat) : Int).toNat = M + 1 by simp]
    exact connectGo_all_fail succ hf M 1
  refine ⟨?_, ?_, ?_⟩
  · unfold runProcess
    rw [hphase]
  · rw [hphase]
  · rw [hphase]
    exact failTrace_attempts M 1

/-- C5 amended witness: ceiling 3, every attempt failing. -/
theorem exit_status_zero_on_exhaustion_witness :
    runProcess (fun _ => false) ((3 : Nat) : Int) = some 0
    ∧ (connectPhase (fun _ => false) ((3 : Nat) : Int)).2 = none
    ∧ ((connectPhase (fun _ => false) ((3 : Nat) : Int)).1.filter
        Ev.isAttempt).length = 3 :=
  exit_status_zero_on_exhaustion 3 (fun _ => false) (by decide) (fun _ => rfl)

theorem samplingTrace_count_reads (n : Nat) :
    (samplingTrace false n).count Ev.sensorRead = n := by
  induction n with
  | zero => rfl
  | succ n ih => simp [samplingTrace, List.count_cons, ih]

theorem samplingTrace_no_writes (n : Nat) :
    Ev.uaWrite ∉ samplingTrace false n := by
  induction n with
  | zero => simp [samplingTrace]
  | succ n ih => simp [samplingTrace, ih]

/-- C10: with a retry count of 0 or negative, `range(1, retries + 1)` is
empty, so the controller makes zero connection attempts and — instead of
terminating through the exhaustion branch — falls through into the
sampling loop with `writer = None`: every cycle reads the sensor and
issues no OPC UA write. -/
theorem retries_nonpositive_skips_connect :
    ∀ (retries : Int) (succ : Nat → Bool) (n : Nat),
      retries ≤ 0 →
      connectPhase succ retries = ([], some false)
      ∧ runMainTrace succ retries n = (samplingTrace false n, true)
      ∧ (samplingTrace false n).count Ev.sensorRead = n
      ∧ Ev.uaWrite ∉ samplingTrace false n := by
  intro retries succ n hr
  have ht : retries.toNat = 0 := Int.toNat_of_nonpos hr
  have hphase : connectPhase succ retries = ([], some false) := by
    unfold connectPhase
    rw [ht]
    rfl
  refine ⟨hphase, ?_, samplingTrace_count_reads n, samplingTrace_no_writes n⟩
  simp [runMainTrace, hphase]

/-- C10 witness: retry count 0 (with a connect that would succeed if it
were ever attempted) and two sampling cycles. -/
theorem retries_nonpositive_skips_connect_witness :
    connectPhase (fun _ => true) 0 = ([], some false)
    ∧ runMainTrace (fun _ => true) 0 2 = (samplingTrace false 2, true)
    ∧ (samplingTrace false 2).count Ev.sensorRead = 2
    ∧ Ev.uaWrite ∉ samplingTrace false 2 :=
  retries_nonpositive_skips_connect 0 (fun _ => true) 2 (by decide)

end PzemBridge
